import Mathlib

/-!
Shallow embedding of the chatweb backend (src/backend/model.py, keybase.py,
mockchat.py, main.py) and proofs about its reconciliation logic.

Modelling conventions:
* Python `datetime` values are modelled as integer timestamps (`Int`): the
  keybase adapter builds them with `datetime.fromtimestamp(active_at_ms / 1000)`
  (conversations, modelled by the exact `active_at_ms` value, whose order the
  float division preserves) and `datetime.fromtimestamp(sent_at)` (messages,
  modelled by `sent_at`); `datetime.now()` is passed in as a parameter.
* Python `dict` is modelled as an association list with Python's semantics:
  assigning to an existing key replaces the value in place (insertion order of
  the key is kept), assigning a fresh key appends it.
* Python `sorted` is modelled by a stable insertion sort `pySorted le`, where
  `le a b` says `a` may stay in front of `b`; `sorted(key=k)` is
  `pySorted (fun a b => k a <= k b)` and `sorted(key=k, reverse=True)` is
  `pySorted (fun a b => k b <= k a)` (CPython's sort is stable, and with
  `reverse=True` ties still keep input order).
* Fallible code (Python `raise`) returns `Except String`.
-/

namespace Chatweb

/-! ## Domain model (src/backend/model.py) -/

/-- `model.Contact`: `id`, `name`, `avatar`. -/
structure Contact where
  id : String
  name : String
  avatar : String
deriving DecidableEq

/-- `model.Conversation`. `last_active` is declared `datetime = None` in the
source; the keybase adapter always sets it and the mock adapter never reads
it, so it is modelled as a plain integer timestamp (mock's unset default is
`0`). -/
structure Conversation where
  id : String
  name : String
  avatar : String
  last_active : Int := 0
deriving DecidableEq

/-- `model.Message`: `timestamp`, `body` (optional), `sender`. The pydantic
model declares no `id` field, so an `id=` keyword passed at construction is
silently discarded (pydantic ignores unexpected keyword arguments by
default). -/
structure Message where
  timestamp : Int
  body : Option String
  sender : String
deriving DecidableEq

/-- `model.SendMessage`. -/
structure SendMessage where
  conversation_id : String
  body : String
deriving DecidableEq

/-! ## Python dict as an association list -/

/-- `d[k] = v` on a Python dict: replace the value at the first occurrence of
`k`, else append `(k, v)`. -/
def dictUpsert {β : Type} (k : String) (v : β) : List (String × β) → List (String × β)
  | [] => [(k, v)]
  | p :: rest => if p.1 = k then (k, v) :: rest else p :: dictUpsert k v rest

/-- `d.get(k)` on a Python dict. -/
def dictGet {β : Type} (k : String) (d : List (String × β)) : Option β :=
  (d.find? (fun p => p.1 == k)).map (fun p => p.2)

/-! ## Python's stable `sorted` -/

/-- Insert `x` (arriving after everything already in `l`) into the sorted list
`l`: skip over every `y` that may stay in front of `x` (`le y x`), so that
ties keep input order. -/
def insertSorted {α : Type} (le : α → α → Bool) (x : α) : List α → List α
  | [] => [x]
  | y :: ys => if le y x then y :: insertSorted le x ys else x :: y :: ys

/-- Stable sort by repeatedly inserting, in input order. -/
def pySorted {α : Type} (le : α → α → Bool) (l : List α) : List α :=
  l.foldl (fun acc x => insertSorted le x acc) []

/-! ## Keybase CLI adapter (src/backend/keybase.py) -/

/-- `ListResponse.Result.Conversation.Channel.MemberType`. -/
inductive MemberType where
  | impteamnative
  | team
deriving DecidableEq, BEq

/-- `ListResponse.Result.Conversation.Channel`. -/
structure Channel where
  name : String
  members_type : MemberType
deriving DecidableEq

/-- `ListResponse.Result.Conversation`. -/
structure BConversation where
  id : String
  channel : Channel
  active_at : Int
  active_at_ms : Int
deriving DecidableEq

/-- `ListMembersResponse.Result.Owner`: `uid`, `username`,
`fullName: str | None`. -/
structure Owner where
  uid : String
  username : String
  fullName : Option String
deriving DecidableEq

/-- One record of the `them` array returned by the keybase.io user-lookup
service. `full_name` is `some` exactly when the record has a `profile` key
(holding `profile.full_name`); `picture_url` is `some` exactly when it has a
`pictures` key (holding `pictures.primary.url`). Null entries of `them`
(dropped by `if u` in the source) are not representable and hence absent. -/
structure DirUser where
  username : String
  full_name : Option String
  picture_url : Option String
deriving DecidableEq

/-- `ReadResponse.Result.KeybaseMessage.KeybaseMsg`: `content_text` is `some`
exactly when `content.text` is present. -/
structure KMsg where
  id : String
  sender_uid : String
  sent_at : Int
  content_type : String
  content_text : Option String
deriving DecidableEq

/-- The generated placeholder avatar,
`f"https://api.dicebear.com/7.x/initials/svg?seed={seed}"`. -/
def placeholderAvatar (seed : String) : String :=
  "https://api.dicebear.com/7.x/initials/svg?seed=" ++ seed

/-- `owners = {o.uid: o for r in conversation_members_list for o in r.result.owners}`. -/
def ownersDict (os : List Owner) : List (String × Owner) :=
  os.foldl (fun d o => dictUpsert o.uid o d) []

/-- `avatars = {u["basics"]["username"]: u["pictures"]["primary"]["url"]
for u in user_infos["them"] if "pictures" in u}`. -/
def avatarsDict (them : List DirUser) : List (String × String) :=
  them.foldl
    (fun d u =>
      match u.picture_url with
      | some url => dictUpsert u.username url d
      | none => d)
    []

/-- `users = {u["basics"]["username"]: u for u in data["them"] if u}`. -/
def usersDict (them : List DirUser) : List (String × DirUser) :=
  them.foldl (fun d u => dictUpsert u.username u d) []

/-- `owner_to_contact` (closure inside `KeybaseChatProvider.contacts`):
`name = o.fullName if o.fullName else o.username` (Python truthiness: `None`
and `""` both fall back to the username), avatar from the directory's picture
when present, else the placeholder keyed by the chosen display name. -/
def owner_to_contact (avatars : List (String × String)) (o : Owner) : Contact :=
  let name := match o.fullName with
    | some fn => if fn = "" then o.username else fn
    | none => o.username
  { id := o.uid
    name := name
    avatar := (dictGet o.username avatars).getD (placeholderAvatar name) }

/-- `KeybaseChatProvider.contacts`, given the gathered `listmembers` results
(one owner list per conversation, in conversation order) and the directory's
`them` array: merge owners into a dict keyed by uid, build the avatar dict,
and map `owner_to_contact` over the owner dict's values. -/
def keybaseContacts (memberLists : List (List Owner)) (them : List DirUser) : List Contact :=
  let owners := ownersDict memberLists.flatten
  let avatars := avatarsDict them
  (owners.map Prod.snd).map (owner_to_contact avatars)

/-- Helper for `pySplit`: walk the characters, cutting at each separator;
`acc` holds the (reversed) characters of the current piece. -/
def pySplitAux (sep : Char) : List Char → List Char → List String
  | [], acc => [String.mk acc.reverse]
  | c :: cs, acc =>
    if c = sep then String.mk acc.reverse :: pySplitAux sep cs []
    else pySplitAux sep cs (c :: acc)

/-- Python's `s.split(sep)` for a one-character separator: always returns at
least one piece (`"".split(",") == [""]`), and empty pieces between adjacent
separators are kept. -/
def pySplit (sep : Char) (s : String) : List String :=
  pySplitAux sep s.data []

/-- `get_username` (closure inside `KeybaseChatProvider.conversations`):
split the channel name on commas (`channel.name.split(",")`); a single name
is the peer; otherwise drop every occurrence of the caller's username and
demand exactly one name left. -/
def get_username (me : String) (channel : Channel) : Except String String :=
  let usernames := pySplit ',' channel.name
  if usernames.length = 1 then
    Except.ok (usernames.headD "")
  else
    let remaining := usernames.filter (fun u => u != me)
    if remaining.length ≠ 1 then
      Except.error ("Expected only one user. Got: " ++ toString remaining)
    else
      Except.ok (remaining.headD "")

/-- `map_conversation` (closure inside `KeybaseChatProvider.conversations`):
team channels render directly from channel metadata; individual channels
resolve the peer username, then prefer the directory's
`profile.full_name` / `pictures.primary.url`, falling back to the username /
placeholder. -/
def map_conversation (me : String) (users : List (String × DirUser))
    (c : BConversation) : Except String Conversation :=
  if c.channel.members_type = MemberType.team then
    Except.ok
      { id := c.id
        name := c.channel.name
        avatar := placeholderAvatar c.channel.name
        last_active := c.active_at_ms }
  else
    match get_username me c.channel with
    | Except.error e => Except.error e
    | Except.ok username =>
      let user := dictGet username users
      let full_name := match user with
        | some u => match u.full_name with
          | some fn => fn
          | none => username
        | none => username
      let avatar := match user with
        | some u => match u.picture_url with
          | some url => url
          | none => placeholderAvatar full_name
        | none => placeholderAvatar full_name
      Except.ok
        { id := c.id
          name := full_name
          avatar := avatar
          last_active := c.active_at_ms }

/-- The sort order of `sorted(..., key=lambda c: c.last_active, reverse=True)`:
`a` may stay in front of `b` iff `b.last_active <= a.last_active`. -/
def convDescLe (a b : Conversation) : Bool :=
  decide (b.last_active ≤ a.last_active)

/-- `KeybaseChatProvider.conversations`, given the caller's username, the
directory's `them` array and the backend conversation list. The source first
forces `",".join(map(get_username, individual_channels))` (so a resolution
error aborts the call there), then maps `map_conversation` over all
conversations and sorts by `last_active` descending. -/
def keybaseConversations (me : String) (them : List DirUser)
    (convs : List BConversation) : Except String (List Conversation) :=
  match ((convs.filter (fun c => c.channel.members_type != MemberType.team)).map
      (fun c => c.channel)).mapM (get_username me) with
  | Except.error e => Except.error e
  | Except.ok _ =>
    match convs.mapM (map_conversation me (usersDict them)) with
    | Except.error e => Except.error e
    | Except.ok mapped => Except.ok (pySorted convDescLe mapped)

/-- The `chat api` request body built by `KeybaseChatProvider.messages`. -/
structure ReadRequest where
  method : String
  conversation_id : Option String
  pagination_num : Nat
deriving DecidableEq

/-- The request `messages` sends: `{"method": "read", "params": {"options":
{"conversation_id": ..., "pagination": {"num": 100}}}}`. -/
def messagesRequest (conversation_id : Option String) : ReadRequest :=
  { method := "read", conversation_id := conversation_id, pagination_num := 100 }

/-- The `Message(...)` construction inside `KeybaseChatProvider.messages`.
The source also passes `id=message.msg.id`, which the pydantic `Message`
model silently discards (it declares no `id` field), so no id appears here. -/
def toMessage (m : KMsg) : Message :=
  { timestamp := m.sent_at
    body := m.content_text
    sender := m.sender_uid }

/-- The sort order of `sorted(..., key=lambda m: m.timestamp)`. -/
def msgAscLe (a b : Message) : Bool :=
  decide (a.timestamp ≤ b.timestamp)

/-- `KeybaseChatProvider.messages`, given the parsed `read` response: keep
messages whose `content.text` is present, build `Message` values, sort by
timestamp ascending. -/
def keybaseMessages (msgs : List KMsg) : List Message :=
  pySorted msgAscLe ((msgs.filter (fun m => m.content_text.isSome)).map toMessage)

/-! ## Mock adapter (src/backend/mockchat.py) -/

/-- The in-memory state of `MockChatProvider` after `init()`: `_me`,
`_contacts`, `_conversations`, and the `_messages` dict keyed by
conversation id. -/
structure MockState where
  me : Contact
  contacts : List Contact
  conversations : List Conversation
  messages : List (String × List Message)
deriving DecidableEq

/-- `MockChatProvider.whoami`. -/
def mockWhoami (st : MockState) : Contact :=
  st.me

/-- `MockChatProvider.messages`: `self._messages[conversation_id]`; a missing
key raises `KeyError`. -/
def mockMessages (st : MockState) (conversation_id : String) :
    Except String (List Message) :=
  match dictGet conversation_id st.messages with
  | some l => Except.ok l
  | none => Except.error ("KeyError: " ++ conversation_id)

/-- `MockChatProvider.send_message`: append
`Message(timestamp=datetime.now(), body=request.body, sender=self._me.id)` to
`self._messages[request.conversation_id]` (a missing key raises `KeyError`);
`datetime.now()` is passed in as `now`. -/
def mockSendMessage (st : MockState) (request : SendMessage) (now : Int) :
    Except String MockState :=
  match dictGet request.conversation_id st.messages with
  | some l =>
    Except.ok
      { st with
        messages :=
          dictUpsert request.conversation_id
            (l ++ [{ timestamp := now, body := some request.body, sender := st.me.id }])
            st.messages }
  | none => Except.error ("KeyError: " ++ request.conversation_id)

/-! ## Provider registry startup (src/backend/main.py) -/

/-- `await asyncio.gather(*list(p.init() for p in _providers))` inside
`lifespan`, with each provider's `init()` outcome given as an `Except`.
`gather` is called without `return_exceptions=True`, so it raises as soon as
any task raises (modelled as the first error in list order; which failing
task's exception wins is a temporal race, but whether the call raises at all
is not) and only returns when every `init()` succeeded. -/
def gatherInits : List (Except String Unit) → Except String (List Unit)
  | [] => Except.ok []
  | i :: rest =>
    match i with
    | Except.error e => Except.error e
    | Except.ok _ =>
      match gatherInits rest with
      | Except.error e => Except.error e
      | Except.ok l => Except.ok (() :: l)

/-! ## Lemmas about the dict model -/

theorem mem_keys_dictUpsert {β : Type} (k : String) (v : β) (d : List (String × β))
    (a : String) :
    a ∈ (dictUpsert k v d).map Prod.fst ↔ a ∈ d.map Prod.fst ∨ a = k := by
  induction d with
  | nil => simp [dictUpsert]
  | cons p rest ih =>
    by_cases h : p.1 = k
    · subst h
      simp only [dictUpsert, if_pos, List.map_cons, List.mem_cons]
      tauto
    · simp only [dictUpsert, h, if_false, List.map_cons, List.mem_cons, ih]
      tauto

theorem nodup_keys_dictUpsert {β : Type} (k : String) (v : β) (d : List (String × β))
    (h : (d.map Prod.fst).Nodup) : ((dictUpsert k v d).map Prod.fst).Nodup := by
  induction d with
  | nil => simp [dictUpsert]
  | cons p rest ih =>
    rw [List.map_cons, List.nodup_cons] at h
    by_cases hp : p.1 = k
    · simp only [dictUpsert, hp, if_true, List.map_cons, List.nodup_cons]
      exact ⟨hp ▸ h.1, h.2⟩
    · simp only [dictUpsert, hp, if_false, List.map_cons, List.nodup_cons]
      refine ⟨?_, ih h.2⟩
      intro hmem
      rcases (mem_keys_dictUpsert k v rest p.1).mp hmem with hr | rfl
      · exact h.1 hr
      · exact hp rfl

theorem dictUpsert_pairs {β : Type} (P : String × β → Prop) (k : String) (v : β)
    (d : List (String × β)) (hd : ∀ p ∈ d, P p) (hkv : P (k, v)) :
    ∀ p ∈ dictUpsert k v d, P p := by
  induction d with
  | nil => simpa [dictUpsert] using hkv
  | cons q rest ih =>
    intro p hp
    by_cases hq : q.1 = k
    · simp only [dictUpsert, hq, if_true, List.mem_cons] at hp
      rcases hp with rfl | hp
      · exact hkv
      · exact hd p (List.mem_cons_of_mem q hp)
    · simp only [dictUpsert, hq, if_false, List.mem_cons] at hp
      rcases hp with rfl | hp
      · exact hd p (List.mem_cons_self p rest)
      · exact ih (fun r hr => hd r (List.mem_cons_of_mem q hr)) p hp

theorem dictGet_dictUpsert_self {β : Type} (k : String) (v : β)
    (d : List (String × β)) : dictGet k (dictUpsert k v d) = some v := by
  induction d with
  | nil => simp [dictUpsert, dictGet, List.find?]
  | cons p rest ih =>
    by_cases hp : p.1 = k
    · simp [dictUpsert, hp, dictGet, List.find?]
    · simp only [dictUpsert, hp, if_false]
      have hbeq : (p.1 == k) = false := by
        simpa using hp
      simpa [dictGet, List.find?_cons, hbeq] using ih

/-! ## Lemmas about the owners dict -/

theorem nodup_keys_foldl_ownersDict (os : List Owner) (d : List (String × Owner))
    (h : (d.map Prod.fst).Nodup) :
    ((os.foldl (fun d o => dictUpsert o.uid o d) d).map Prod.fst).Nodup := by
  induction os generalizing d with
  | nil => simpa using h
  | cons o os ih =>
    exact ih (dictUpsert o.uid o d) (nodup_keys_dictUpsert o.uid o d h)

theorem uid_pairs_foldl_ownersDict (os : List Owner) (d : List (String × Owner))
    (h : ∀ p ∈ d, p.2.uid = p.1) :
    ∀ p ∈ os.foldl (fun d o => dictUpsert o.uid o d) d, p.2.uid = p.1 := by
  induction os generalizing d with
  | nil => simpa using h
  | cons o os ih =>
    exact ih (dictUpsert o.uid o d)
      (dictUpsert_pairs (fun p => p.2.uid = p.1) o.uid o d h rfl)

/-- C1: `contacts()` never returns two entries with the same `id`: owners are
merged into a dict keyed by uid before `Contact` construction, and each
`Contact.id` is that owner's uid. -/
theorem contacts_distinct_ids (memberLists : List (List Owner)) (them : List DirUser) :
    ((keybaseContacts memberLists them).map Contact.id).Nodup := by
  unfold keybaseContacts
  rw [List.map_map, List.map_map]
  have hpairs : ∀ p ∈ ownersDict memberLists.flatten, p.2.uid = p.1 :=
    uid_pairs_foldl_ownersDict memberLists.flatten [] (by simp)
  have hmap :
      (ownersDict memberLists.flatten).map
          ((Contact.id ∘ owner_to_contact (avatarsDict them)) ∘ Prod.snd) =
        (ownersDict memberLists.flatten).map Prod.fst := by
    refine List.map_congr_left ?_
    intro p hp
    simpa [owner_to_contact] using hpairs p hp
  rw [hmap]
  exact nodup_keys_foldl_ownersDict memberLists.flatten [] (by simp)

/-! ## Lemmas about the stable sort -/

theorem insertSorted_perm {α : Type} (le : α → α → Bool) (x : α) (l : List α) :
    List.Perm (insertSorted le x l) (x :: l) := by
  induction l with
  | nil => simp [insertSorted]
  | cons y ys ih =>
    simp only [insertSorted]
    by_cases h : le y x = true
    · simp only [h, if_true]
      exact (ih.cons y).trans (List.Perm.swap x y ys)
    · simp [h]

theorem pySorted_foldl_perm {α : Type} (le : α → α → Bool) (l acc : List α) :
    List.Perm (l.foldl (fun acc x => insertSorted le x acc) acc) (acc ++ l) := by
  induction l generalizing acc with
  | nil => simp
  | cons x xs ih =>
    simp only [List.foldl_cons]
    refine (ih (insertSorted le x acc)).trans ?_
    refine (((insertSorted_perm le x acc).append_right xs).trans ?_)
    exact List.perm_middle.symm

theorem pySorted_perm {α : Type} (le : α → α → Bool) (l : List α) :
    List.Perm (pySorted le l) l := by
  simpa using pySorted_foldl_perm le l []

theorem pairwise_insertSorted {α : Type} (le : α → α → Bool)
    (htot : ∀ a b, le a b = true ∨ le b a = true)
    (htrans : ∀ a b c, le a b = true → le b c = true → le a c = true)
    (x : α) (l : List α) (h : l.Pairwise (fun a b => le a b = true)) :
    (insertSorted le x l).Pairwise (fun a b => le a b = true) := by
  induction l with
  | nil => simp [insertSorted]
  | cons y ys ih =>
    rcases List.pairwise_cons.mp h with ⟨hy, hys⟩
    simp only [insertSorted]
    by_cases hle : le y x = true
    · simp only [hle, if_true]
      refine List.pairwise_cons.mpr ⟨?_, ih hys⟩
      intro z hz
      rcases List.mem_cons.mp ((insertSorted_perm le x ys).mem_iff.mp hz) with rfl | hz2
      · exact hle
      · exact hy z hz2
    · simp only [hle, if_false]
      have hxy : le x y = true := (htot x y).resolve_right hle
      refine List.pairwise_cons.mpr ⟨?_, List.pairwise_cons.mpr ⟨hy, hys⟩⟩
      intro z hz
      rcases List.mem_cons.mp hz with rfl | hz2
      · exact hxy
      · exact htrans x y z hxy (hy z hz2)

theorem pairwise_pySorted_foldl {α : Type} (le : α → α → Bool)
    (htot : ∀ a b, le a b = true ∨ le b a = true)
    (htrans : ∀ a b c, le a b = true → le b c = true → le a c = true)
    (l acc : List α) (hacc : acc.Pairwise (fun a b => le a b = true)) :
    (l.foldl (fun acc x => insertSorted le x acc) acc).Pairwise
      (fun a b => le a b = true) := by
  induction l generalizing acc with
  | nil => simpa using hacc
  | cons x xs ih =>
    exact ih (insertSorted le x acc) (pairwise_insertSorted le htot htrans x acc hacc)

theorem pairwise_pySorted {α : Type} (le : α → α → Bool)
    (htot : ∀ a b, le a b = true ∨ le b a = true)
    (htrans : ∀ a b c, le a b = true → le b c = true → le a c = true)
    (l : List α) :
    (pySorted le l).Pairwise (fun a b => le a b = true) :=
  pairwise_pySorted_foldl le htot htrans l [] (by simp)

theorem filter_insertSorted {α : Type} (le : α → α → Bool) (p : α → Bool)
    (htrans : ∀ a b c, le a b = true → le b c = true → le a c = true)
    (htie : ∀ a b, p a = true → p b = true → le a b = true)
    (x : α) (l : List α) (hs : l.Pairwise (fun a b => le a b = true)) :
    (insertSorted le x l).filter p = l.filter p ++ (if p x then [x] else []) := by
  induction l with
  | nil =>
    simp only [insertSorted, List.filter_nil, List.nil_append]
    cases hpx : p x <;> simp [List.filter_cons, hpx]
  | cons y ys ih =>
    rcases List.pairwise_cons.mp hs with ⟨hy, hys⟩
    simp only [insertSorted]
    by_cases hle : le y x = true
    · simp only [hle, if_true, List.filter_cons]
      cases hpy : p y <;> simp [ih hys]
    · simp only [hle, if_false]
      cases hpx : p x with
      | false => simp [List.filter_cons, hpx]
      | true =>
        have hnone : ∀ z ∈ y :: ys, ¬ p z = true := by
          intro z hz hpz
          rcases List.mem_cons.mp hz with rfl | hz2
          · exact hle (htie z x hpz hpx)
          · exact hle (htrans y z x (hy z hz2) (htie z x hpz hpx))
        have hfe : (y :: ys).filter p = [] := List.filter_eq_nil_iff.mpr hnone
        simp [List.filter_cons, hpx, hfe]

theorem filter_pySorted_foldl {α : Type} (le : α → α → Bool) (p : α → Bool)
    (htot : ∀ a b, le a b = true ∨ le b a = true)
    (htrans : ∀ a b c, le a b = true → le b c = true → le a c = true)
    (htie : ∀ a b, p a = true → p b = true → le a b = true)
    (l acc : List α) (hacc : acc.Pairwise (fun a b => le a b = true)) :
    (l.foldl (fun acc x => insertSorted le x acc) acc).filter p =
      acc.filter p ++ l.filter p := by
  induction l generalizing acc with
  | nil => simp
  | cons x xs ih =>
    simp only [List.foldl_cons]
    rw [ih (insertSorted le x acc) (pairwise_insertSorted le htot htrans x acc hacc)]
    rw [filter_insertSorted le p htrans htie x acc hacc]
    cases hpx : p x <;> simp [List.filter_cons, hpx]

theorem filter_pySorted {α : Type} (le : α → α → Bool) (p : α → Bool)
    (htot : ∀ a b, le a b = true ∨ le b a = true)
    (htrans : ∀ a b c, le a b = true → le b c = true → le a c = true)
    (htie : ∀ a b, p a = true → p b = true → le a b = true)
    (l : List α) :
    (pySorted le l).filter p = l.filter p := by
  simpa using filter_pySorted_foldl le p htot htrans htie l [] (by simp)

/-! ## Order facts for the two sort keys -/

theorem convDescLe_total (a b : Conversation) :
    convDescLe a b = true ∨ convDescLe b a = true := by
  rcases Int.le_total b.last_active a.last_active with h | h <;>
    simp [convDescLe, h]

theorem convDescLe_trans (a b c : Conversation) (h1 : convDescLe a b = true)
    (h2 : convDescLe b c = true) : convDescLe a c = true := by
  simp only [convDescLe, decide_eq_true_eq] at h1 h2 ⊢
  exact le_trans h2 h1

theorem msgAscLe_total (a b : Message) :
    msgAscLe a b = true ∨ msgAscLe b a = true := by
  rcases Int.le_total a.timestamp b.timestamp with h | h <;>
    simp [msgAscLe, h]

theorem msgAscLe_trans (a b c : Message) (h1 : msgAscLe a b = true)
    (h2 : msgAscLe b c = true) : msgAscLe a c = true := by
  simp only [msgAscLe, decide_eq_true_eq] at h1 h2 ⊢
  exact le_trans h1 h2

/-- C4: when `conversations()` succeeds, its result is the stable descending
sort of the mapped conversation list: sorted by `last_active` descending, a
permutation of the mapped list, and for every key value the entries with that
`last_active` keep their input order (stable ties). -/
theorem conversations_sorted_desc_stable (me : String) (them : List DirUser)
    (convs : List BConversation) (l0 l : List Conversation)
    (hok : keybaseConversations me them convs = Except.ok l)
    (hmap : convs.mapM (map_conversation me (usersDict them)) = Except.ok l0) :
    l.Pairwise (fun a b => b.last_active ≤ a.last_active) ∧
    List.Perm l l0 ∧
    ∀ t : Int, l.filter (fun c => decide (c.last_active = t)) =
      l0.filter (fun c => decide (c.last_active = t)) := by
  unfold keybaseConversations at hok
  split at hok
  · exact absurd hok (by simp)
  · split at hok
    · exact absurd hok (by simp)
    · rename_i mapped heq
      rw [hmap] at heq
      injection heq with heq
      injection hok with hok
      subst heq
      subst hok
      refine ⟨?_, pySorted_perm convDescLe l0, ?_⟩
      · exact (pairwise_pySorted convDescLe convDescLe_total convDescLe_trans l0).imp
          (fun h => by simpa [convDescLe] using h)
      · intro t
        refine filter_pySorted convDescLe (fun c => decide (c.last_active = t))
          convDescLe_total convDescLe_trans ?_ l0
        intro a b ha hb
        simp only [decide_eq_true_eq] at ha hb
        simp [convDescLe, ha, hb]

/-- Concrete input for the C4 witness: three team conversations with
`active_at_ms` 100, 300, 200 (team channels need no directory lookup). -/
def exConvs : List BConversation :=
  [ { id := "c1", channel := { name := "t1", members_type := MemberType.team },
      active_at := 0, active_at_ms := 100 },
    { id := "c2", channel := { name := "t2", members_type := MemberType.team },
      active_at := 0, active_at_ms := 300 },
    { id := "c3", channel := { name := "t3", members_type := MemberType.team },
      active_at := 0, active_at_ms := 200 } ]

/-- The mapped (unsorted) conversations for `exConvs`. -/
def exMapped : List Conversation :=
  [ { id := "c1", name := "t1", avatar := placeholderAvatar "t1", last_active := 100 },
    { id := "c2", name := "t2", avatar := placeholderAvatar "t2", last_active := 300 },
    { id := "c3", name := "t3", avatar := placeholderAvatar "t3", last_active := 200 } ]

/-- The expected sorted output for `exConvs`. -/
def exSorted : List Conversation :=
  [ { id := "c2", name := "t2", avatar := placeholderAvatar "t2", last_active := 300 },
    { id := "c3", name := "t3", avatar := placeholderAvatar "t3", last_active := 200 },
    { id := "c1", name := "t1", avatar := placeholderAvatar "t1", last_active := 100 } ]

/-- C4 witness: on `active_at_ms` values `[100, 300, 200]` the output order is
`[300, 200, 100]`, and it is sorted descending. -/
theorem conversations_sorted_witness :
    keybaseConversations "alice" [] exConvs = Except.ok exSorted ∧
    exSorted.map (fun c => c.last_active) = [300, 200, 100] ∧
    exSorted.Pairwise (fun a b => b.last_active ≤ a.last_active) := by
  have h1 : keybaseConversations "alice" [] exConvs = Except.ok exSorted := by rfl
  have h2 : exConvs.mapM (map_conversation "alice" (usersDict [])) =
      Except.ok exMapped := by rfl
  obtain ⟨hp, -, -⟩ :=
    conversations_sorted_desc_stable "alice" [] exConvs exMapped exSorted h1 h2
  exact ⟨h1, by decide, hp⟩

/-- C6: `messages()` asks the backend for at most 100 messages
(`pagination.num = 100`), returns exactly the text-bearing backend messages
(every non-text one is dropped, with no error possible: the function is
total), and sorts the result ascending by timestamp. -/
theorem messages_capped_filtered_sorted (conversation_id : Option String)
    (msgs : List KMsg) :
    (messagesRequest conversation_id).pagination_num = 100 ∧
    List.Perm (keybaseMessages msgs)
      ((msgs.filter (fun m => m.content_text.isSome)).map toMessage) ∧
    (keybaseMessages msgs).Pairwise (fun a b => a.timestamp ≤ b.timestamp) := by
  refine ⟨rfl, pySorted_perm msgAscLe _, ?_⟩
  exact (pairwise_pySorted msgAscLe msgAscLe_total msgAscLe_trans _).imp
    (fun h => by simpa [msgAscLe] using h)

/-- C9: evaluating `messages()` on a backend message whose id is `"42"` —
the returned `Message` holds only `timestamp`, `body` and `sender`; the
`id=message.msg.id` keyword passed in the source is silently discarded
because the pydantic `Message` model declares no `id` field. -/
theorem message_id_not_retained :
    keybaseMessages
        [{ id := "42", sender_uid := "u9", sent_at := 5, content_type := "text",
           content_text := some "hello" }] =
      [{ timestamp := 5, body := some "hello", sender := "u9" }] := rfl

/-- C10: every message returned by the CLI adapter's `messages()` has a
non-`None` body: the filter keeps only backend messages with text content,
and `body` is set to that text. -/
theorem messages_body_present (msgs : List KMsg) (m : Message)
    (h : m ∈ keybaseMessages msgs) : m.body ≠ none := by
  have hp : m ∈ (msgs.filter (fun x => x.content_text.isSome)).map toMessage :=
    (pySorted_perm msgAscLe _).mem_iff.mp h
  obtain ⟨b, hb, rfl⟩ := List.mem_map.mp hp
  have hsome := (List.mem_filter.mp hb).2
  have hne : b.content_text ≠ none := by
    simpa [Option.isSome_iff_ne_none] using hsome
  simpa [toMessage] using hne

/-- C10 witness at a concrete text message. -/
theorem messages_body_present_witness :
    (({ timestamp := 7, body := some "hey", sender := "u3" } : Message) ∈
      keybaseMessages
        [{ id := "9", sender_uid := "u3", sent_at := 7, content_type := "text",
           content_text := some "hey" }]) ∧
    ({ timestamp := 7, body := some "hey", sender := "u3" } : Message).body ≠ none :=
  ⟨by decide,
   messages_body_present
     [{ id := "9", sender_uid := "u3", sent_at := 7, content_type := "text",
        content_text := some "hey" }]
     { timestamp := 7, body := some "hey", sender := "u3" }
     (by decide)⟩

/-! ## Peer resolution (C2, C3) -/

/-- C2: for an individual channel whose name splits into exactly two
usernames, exactly one of which is the caller's, `get_username` returns the
other participant and never the caller. -/
theorem get_username_two_party (me a b : String) (ch : Channel)
    (_hteam : ch.members_type ≠ MemberType.team)
    (hsplit : pySplit ',' ch.name = [a, b])
    (hone : (a = me ∧ b ≠ me) ∨ (b = me ∧ a ≠ me)) :
    ∃ peer, get_username me ch = Except.ok peer ∧ peer ≠ me ∧
      (peer = a ∨ peer = b) := by
  rcases hone with ⟨rfl, hb⟩ | ⟨rfl, ha⟩
  · refine ⟨b, ?_, hb, Or.inr rfl⟩
    simp [get_username, hsplit, List.filter_cons, hb]
  · refine ⟨a, ?_, ha, Or.inl rfl⟩
    simp [get_username, hsplit, List.filter_cons, ha]

/-- C2 witness: channel `"alice,bob"`, caller `"alice"`, resolves to
`"bob"`. -/
theorem get_username_two_party_witness :
    (pySplit ',' "alice,bob" = ["alice", "bob"]) ∧
    ∃ peer,
      get_username "alice"
          { name := "alice,bob", members_type := MemberType.impteamnative } =
        Except.ok peer ∧ peer ≠ "alice" ∧ (peer = "alice" ∨ peer = "bob") :=
  ⟨rfl,
   get_username_two_party "alice" "alice" "bob"
     { name := "alice,bob", members_type := MemberType.impteamnative }
     (by decide) rfl (Or.inl ⟨rfl, by decide⟩)⟩

/-- C3 counterexample: the channel name `"alice,alice,bob"` lists three
usernames including the caller `"alice"`, yet `get_username` succeeds with
`"bob"` instead of failing — the code removes every occurrence of the
caller's username, so only one name is left. -/
theorem get_username_three_party_counterexample :
    pySplit ',' "alice,alice,bob" = ["alice", "alice", "bob"] ∧
    get_username "alice"
        { name := "alice,alice,bob", members_type := MemberType.impteamnative } =
      Except.ok "bob" :=
  ⟨rfl, rfl⟩

theorem length_filter_bne (me : String) (l : List String) :
    (l.filter (fun u => u != me)).length + l.count me = l.length := by
  induction l with
  | nil => simp
  | cons x xs ih =>
    by_cases h : x = me
    · subst h
      have hb : (x != x) = false := by simp
      have hc : (x == x) = true := by simp
      simp only [List.filter_cons, hb, Bool.false_eq_true, if_false,
        List.count_cons, hc, if_true, List.length_cons]
      omega
    · have hb : (x != me) = true := by simpa using h
      have hc : (x == me) = false := by simpa using h
      simp only [List.filter_cons, hb, if_true, List.count_cons, hc,
        Bool.false_eq_true, if_false, List.length_cons]
      omega

/-- C3 (amended): for a channel whose name lists three or more usernames, of
which exactly one is the caller's, `get_username` fails with an error rather
than returning any username. -/
theorem get_username_ambiguous_error (me : String) (ch : Channel)
    (l : List String) (hsplit : pySplit ',' ch.name = l)
    (hlen : 3 ≤ l.length) (hcount : l.count me = 1) :
    ∃ msg, get_username me ch = Except.error msg := by
  have hflen : (l.filter (fun u => u != me)).length + l.count me = l.length :=
    length_filter_bne me l
  refine ⟨"Expected only one user. Got: " ++ toString (l.filter (fun u => u != me)), ?_⟩
  simp only [get_username, hsplit]
  rw [if_neg (by omega), if_pos (by omega)]

/-- C3 (amended) witness: channel `"alice,bob,carol"`, caller `"alice"`,
fails. -/
theorem get_username_ambiguous_witness :
    (pySplit ',' "alice,bob,carol" = ["alice", "bob", "carol"]) ∧
    ∃ msg, get_username "alice"
        { name := "alice,bob,carol", members_type := MemberType.impteamnative } =
      Except.error msg :=
  ⟨rfl,
   get_username_ambiguous_error "alice"
     { name := "alice,bob,carol", members_type := MemberType.impteamnative }
     ["alice", "bob", "carol"] rfl (by decide) (by decide)⟩

/-! ## Contact name / avatar fallbacks (C5) -/

/-- C5 counterexample: the owner record carries `fullName = "Bob Smith"` for
username `"bob"`, and the directory (`them = []`) returns no record; the
resulting contact's name is the membership record's full name, not the
username, and the placeholder avatar is keyed by that full name, not by the
username — the full name in `contacts()` comes from the `listmembers` owner
data, not from the directory lookup. -/
theorem contact_name_not_username_counterexample :
    keybaseContacts [[{ uid := "u1", username := "bob", fullName := some "Bob Smith" }]] [] =
      [{ id := "u1", name := "Bob Smith", avatar := placeholderAvatar "Bob Smith" }] ∧
    ("Bob Smith" : String) ≠ "bob" ∧
    placeholderAvatar "Bob Smith" ≠ placeholderAvatar "bob" :=
  ⟨rfl, by decide, by decide⟩

/-- C5 (amended): `owner_to_contact` keeps the owner's uid as `Contact.id`;
when the membership record has no (truthy) full name, the display name is the
username, and if additionally the directory returned no picture for that
username the avatar is the placeholder keyed by the username; the membership
record's non-empty `fullName` is preferred over the username, and the
directory's picture URL is preferred over the placeholder. -/
theorem owner_to_contact_fallbacks (them : List DirUser) (o : Owner) :
    (owner_to_contact (avatarsDict them) o).id = o.uid ∧
    ((o.fullName = none ∨ o.fullName = some "") →
      (owner_to_contact (avatarsDict them) o).name = o.username) ∧
    ((o.fullName = none ∨ o.fullName = some "") →
      dictGet o.username (avatarsDict them) = none →
      (owner_to_contact (avatarsDict them) o).avatar = placeholderAvatar o.username) ∧
    (∀ fn, o.fullName = some fn → fn ≠ "" →
      (owner_to_contact (avatarsDict them) o).name = fn) ∧
    (∀ url, dictGet o.username (avatarsDict them) = some url →
      (owner_to_contact (avatarsDict them) o).avatar = url) := by
  refine ⟨rfl, ?_, ?_, ?_, ?_⟩
  · rintro (h | h) <;> simp [owner_to_contact, h]
  · rintro (h | h) hg <;> simp [owner_to_contact, h, hg]
  · intro fn hfn hne
    simp [owner_to_contact, hfn, hne]
  · intro url hurl
    simp [owner_to_contact, hurl]

/-- C5 (amended) witness: owner `"bob"` with no full name and an empty
directory gets name `"bob"` and the placeholder avatar keyed by `"bob"`. -/
theorem owner_to_contact_fallbacks_witness :
    (owner_to_contact (avatarsDict [])
        { uid := "u1", username := "bob", fullName := none }).name = "bob" ∧
    (owner_to_contact (avatarsDict [])
        { uid := "u1", username := "bob", fullName := none }).avatar =
      placeholderAvatar "bob" := by
  obtain ⟨-, hname, havatar, -, -⟩ :=
    owner_to_contact_fallbacks [] { uid := "u1", username := "bob", fullName := none }
  exact ⟨hname (Or.inl rfl), havatar (Or.inl rfl) rfl⟩

/-! ## Mock round trip (C7) -/

/-- C7: against the mock provider, if the state has conversation `"c1"`,
then `send_message({conversation_id: "c1", body: "hi"})` succeeds and a
subsequent `messages("c1")` includes a message with body `"hi"` whose sender
is `whoami().id`. -/
theorem mock_send_roundtrip (st : MockState) (now : Int) (l0 : List Message)
    (h : dictGet "c1" st.messages = some l0) :
    ∃ st', mockSendMessage st { conversation_id := "c1", body := "hi" } now =
        Except.ok st' ∧
      ∃ l, mockMessages st' "c1" = Except.ok l ∧
        ∃ m, m ∈ l ∧ m.body = some "hi" ∧ m.sender = (mockWhoami st').id := by
  refine ⟨{ st with
      messages := dictUpsert "c1"
        (l0 ++ [{ timestamp := now, body := some "hi", sender := st.me.id }])
        st.messages }, ?_, ?_⟩
  · simp [mockSendMessage, h]
  · refine ⟨l0 ++ [{ timestamp := now, body := some "hi", sender := st.me.id }], ?_, ?_⟩
    · simp [mockMessages, dictGet_dictUpsert_self]
    · exact ⟨{ timestamp := now, body := some "hi", sender := st.me.id },
        by simp, rfl, rfl⟩

/-- C7 witness: a concrete initialized mock state holding conversation
`"c1"` with no messages yet. -/
theorem mock_send_roundtrip_witness :
    ∃ st', mockSendMessage
        { me := { id := "u0", name := "Me", avatar := "av" }, contacts := [],
          conversations := [], messages := [("c1", [])] }
        { conversation_id := "c1", body := "hi" } 5 = Except.ok st' ∧
      ∃ l, mockMessages st' "c1" = Except.ok l ∧
        ∃ m, m ∈ l ∧ m.body = some "hi" ∧ m.sender = (mockWhoami st').id :=
  mock_send_roundtrip
    { me := { id := "u0", name := "Me", avatar := "av" }, contacts := [],
      conversations := [], messages := [("c1", [])] }
    5 [] rfl

/-! ## Registry startup (C8) -/

/-- C8 counterexample: with two adapters where the first `init()` fails and
the second succeeds, the startup gather raises — the whole registry
initialization aborts, so the failure is not confined to the failing
adapter. -/
theorem gather_init_failure_counterexample :
    gatherInits [Except.error "boom", Except.ok ()] = Except.error "boom" :=
  rfl

/-- C8 (amended): the startup gather is all-or-nothing — if any single
adapter's `init()` fails, the whole registry initialization fails (no adapter
becomes available), and it succeeds only when every `init()` succeeds. -/
theorem gather_init_all_or_nothing (inits : List (Except String Unit)) :
    ((∃ e, Except.error e ∈ inits) → ∃ e2, gatherInits inits = Except.error e2) ∧
    ((∀ i ∈ inits, i = Except.ok ()) →
      gatherInits inits = Except.ok (inits.map (fun _ => ()))) := by
  induction inits with
  | nil =>
    refine ⟨?_, fun _ => rfl⟩
    rintro ⟨e, he⟩
    exact absurd he (List.not_mem_nil _)
  | cons i rest ih =>
    constructor
    · rintro ⟨e, he⟩
      rcases List.mem_cons.mp he with rfl | hmem
      · exact ⟨e, rfl⟩
      · cases i with
        | error e2 => exact ⟨e2, rfl⟩
        | ok u =>
          obtain ⟨e3, he3⟩ := ih.1 ⟨e, hmem⟩
          refine ⟨e3, ?_⟩
          simp only [gatherInits, he3]
    · intro hall
      have hi := hall i (List.mem_cons_self i rest)
      subst hi
      have hr := ih.2 (fun j hj => hall j (List.mem_cons_of_mem _ hj))
      simp only [gatherInits, hr, List.map_cons]

/-- C8 (amended) witness: one failing and one succeeding `init()` make the
whole gather fail. -/
theorem gather_init_all_or_nothing_witness :
    ∃ e2, gatherInits [Except.error "boom", Except.ok ()] = Except.error e2 :=
  (gather_init_all_or_nothing [Except.error "boom", Except.ok ()]).1
    ⟨"boom", List.mem_cons_self _ _⟩

end Chatweb
